import Mathlib

/-!
Shallow embedding of `WMP.py` (windowed multipole cross-section library) and
verification of its specification.  Python floats are modelled by `ℝ`; numpy
arrays by explicit shape data plus total entry functions; code paths that raise
a Python exception (`ValueError`, `ZeroDivisionError`, `IndexError`) are
modelled by `Option`, with `none` standing for "an exception was raised".
The external `scipy.special.wofz` routine is modelled by a function parameter
`w : ℂ → ℂ`.
-/

noncomputable section

namespace WMP

open scoped Real

/-- Version of WMP nuclear data format (`WMP_VERSION = 'v1.0'`). -/
def WMP_VERSION : String := "v1.0"

/-- The value of the Boltzmann constant in units of eV / K
(`K_BOLTZMANN = 8.6173303e-5`). -/
def K_BOLTZMANN : ℝ := 8.6173303e-5

/-- The real error function, `math.erf` from the Python standard library:
`erf x = 2/sqrt(pi) * ∫ t in 0..x, exp (-t^2)`. -/
def erf (x : ℝ) : ℝ := 2 / Real.sqrt π * ∫ t in (0:ℝ)..x, Real.exp (-t ^ 2)

/-- Entry `k` of the `factors` array built by `_broaden_wmp_polynomials`
(WMP.py lines 186-218).  The Python loop `for i in range(1, n-2)` writes
`factors[i+2]`; entry `m+3` here corresponds to loop iteration `i = m+1`.
`half_inv_dopp2 = 0.5/dopp**2` and `quarter_inv_dopp4 = half_inv_dopp2**2`
are inlined, as is the value `factors[0] = erf_beta/E` used by the
`factors[2]` line. -/
def broadenFactor (E dopp : ℝ) : ℕ → ℝ
  | 0 => (if 6 < Real.sqrt E * dopp then 1 else erf (Real.sqrt E * dopp)) / E
  | 1 => 1 / Real.sqrt E
  | 2 =>
      (if 6 < Real.sqrt E * dopp then 1 else erf (Real.sqrt E * dopp)) / E
          * (0.5 / dopp ^ 2 + E)
        + (if 6 < Real.sqrt E * dopp then 0 else Real.exp (-(Real.sqrt E * dopp) ^ 2))
          / (Real.sqrt E * dopp * Real.sqrt π)
  | (m + 3) =>
      if m = 0 then
        broadenFactor E dopp 1 * (E + (1 + 2 * 1) * (0.5 / dopp ^ 2))
      else
        -broadenFactor E dopp (m - 1) * (((m + 1 : ℕ) : ℝ) - 1) * ((m + 1 : ℕ) : ℝ)
            * (0.5 / dopp ^ 2) ^ 2
          + broadenFactor E dopp (m + 1) * (E + (1 + 2 * ((m + 1 : ℕ) : ℝ)) * (0.5 / dopp ^ 2))
  termination_by k => k
  decreasing_by
    all_goals omega

/-- `_broaden_wmp_polynomials(E, dopp, n)` (WMP.py lines 165-220): the array
of `n` Doppler-broadened curvefit polynomial terms. -/
def _broaden_wmp_polynomials (E dopp : ℝ) (n : ℕ) : List ℝ :=
  (List.range n).map (broadenFactor E dopp)

/-- `_faddeeva(z)` (WMP.py lines 119-162).  The scipy routine
`scipy.special.wofz` is an external collaborator, passed in as `w`.
`np.angle(z)` is `Complex.arg z` (both are `atan2(im, re)`). -/
def _faddeeva (w : ℂ → ℂ) (z : ℂ) : ℂ :=
  if 0 < Complex.arg z then w z
  else -(starRingEnd ℂ) (w ((starRingEnd ℂ) z))

/-- A numpy ndarray of element type `α`: a shape together with a total entry
function (meaningful on multi-indices below the shape). -/
structure NDArray (α : Type) where
  shape : List ℕ
  entry : List ℕ → α

/-- `shape[i]` for a numpy shape tuple. -/
def shapeAt (s : List ℕ) (i : ℕ) : ℕ := s.getD i 0

/-- The datasets of the HDF5 `nuclide` group read by `from_hdf5`
(WMP.py lines 450-475).  Element dtypes are reflected in the Lean types;
`broaden_poly` is the array after the `astype(np.bool)` conversion. -/
structure Group where
  spacing : ℝ
  sqrtAWR : ℝ
  start_E : ℝ
  end_E : ℝ
  data : NDArray ℂ
  w_start : NDArray ℤ
  w_end : NDArray ℤ
  broaden_poly : NDArray Bool
  curvefit : NDArray ℝ

/-- A fully assembled `WindowedMultipole` object: the fields of the Python
class after all setters ran, with each array's shape destructured
(`data` is 2-D, `w_start`/`w_end`/`broaden_poly` 1-D, `curvefit` 3-D). -/
structure Table where
  spacing : ℝ
  sqrtAWR : ℝ
  start_E : ℝ
  end_E : ℝ
  poleRows : ℕ
  poleCols : ℕ
  data : ℕ → ℕ → ℂ
  wsLen : ℕ
  ws : ℕ → ℤ
  weLen : ℕ
  we : ℕ → ℤ
  bpLen : ℕ
  bp : ℕ → Bool
  cfW : ℕ
  cfT : ℕ
  cfC : ℕ
  cf : ℕ → ℕ → ℕ → ℝ

/-- `fit_order` property (WMP.py line 281): `curvefit.shape[1] - 1`. -/
def Table.fit_order (t : Table) : ℕ := t.cfT - 1

/-- Python/numpy 1-D indexing of an array of length `len` with a possibly
negative index `i`: in bounds iff `-len ≤ i < len` (negative indices wrap);
out of bounds raises `IndexError`, modelled by `none`. -/
def npIdx (len : ℕ) (i : ℤ) : Option ℕ :=
  if 0 ≤ i then (if i < (len : ℤ) then some i.toNat else none)
  else (if 0 ≤ i + (len : ℤ) then some (i + (len : ℤ)).toNat else none)

/-- The row actually read by a (known in-bounds) possibly negative numpy
index. -/
def npWrap (len : ℕ) (i : ℤ) : ℕ :=
  if 0 ≤ i then i.toNat else (i + (len : ℤ)).toNat

/-- Validation performed by `from_hdf5` on a group (WMP.py lines 448-482):
the property setters' checks (lines 327-413) plus the cross-array shape
checks and the `fit_order ≥ 2` check.  Scalar type checks and array dtype
checks are enforced by the Lean types of `Group`. -/
def groupChecks (g : Group) : Prop :=
  0 < g.spacing ∧ 0 < g.sqrtAWR ∧ 0 ≤ g.start_E ∧ 0 < g.end_E ∧
  g.data.shape.length = 2 ∧
  (shapeAt g.data.shape 1 = 3 ∨ shapeAt g.data.shape 1 = 4) ∧
  g.w_start.shape.length = 1 ∧
  g.w_end.shape.length = 1 ∧
  shapeAt g.w_end.shape 0 = shapeAt g.w_start.shape 0 ∧
  g.broaden_poly.shape.length = 1 ∧
  shapeAt g.broaden_poly.shape 0 = shapeAt g.w_start.shape 0 ∧
  g.curvefit.shape.length = 3 ∧
  (shapeAt g.curvefit.shape 2 = 2 ∨ shapeAt g.curvefit.shape 2 = 3) ∧
  shapeAt g.curvefit.shape 0 = shapeAt g.w_start.shape 0 ∧
  3 ≤ shapeAt g.curvefit.shape 1

instance (g : Group) : Decidable (groupChecks g) := by
  unfold groupChecks; infer_instance

/-- The table assembled from a group that passed validation
(WMP.py lines 448-482). -/
def tableOfGroup (g : Group) : Table where
  spacing := g.spacing
  sqrtAWR := g.sqrtAWR
  start_E := g.start_E
  end_E := g.end_E
  poleRows := shapeAt g.data.shape 0
  poleCols := shapeAt g.data.shape 1
  data := fun i j => g.data.entry [i, j]
  wsLen := shapeAt g.w_start.shape 0
  ws := fun i => g.w_start.entry [i]
  weLen := shapeAt g.w_end.shape 0
  we := fun i => g.w_end.entry [i]
  bpLen := shapeAt g.broaden_poly.shape 0
  bp := fun i => g.broaden_poly.entry [i]
  cfW := shapeAt g.curvefit.shape 0
  cfT := shapeAt g.curvefit.shape 1
  cfC := shapeAt g.curvefit.shape 2
  cf := fun i j k => g.curvefit.entry [i, j, k]

/-- Loading a `WindowedMultipole` from an (already opened) HDF5 group:
the body of `from_hdf5` after the version handling (WMP.py lines 448-482).
A raised `TypeError`/`ValueError` is modelled by `none`. -/
def loadGroup (g : Group) : Option Table :=
  if groupChecks g then some (tableOfGroup g) else none

/-- An HDF5 file as read by `from_hdf5` when given a filename: a version
tag dataset plus the `nuclide` group (WMP.py lines 437-446). -/
structure HFile where
  version : String
  nuclide : Group

/-- The argument of `from_hdf5`: either an `h5py.Group` or a filename. -/
inductive GroupOrFilename where
  | group : Group → GroupOrFilename
  | filename : HFile → GroupOrFilename

/-- `WindowedMultipole.from_hdf5` (WMP.py lines 415-482).  The version tag
is checked only on the filename path (lines 434-446). -/
def from_hdf5 : GroupOrFilename → Option Table
  | .group g => loadGroup g
  | .filename f =>
      if f.version = WMP_VERSION then loadGroup f.nuclide else none

/-- The window locator (WMP.py line 517):
`i_window = int(np.floor((sqrtE - sqrt(start_E)) / spacing))`. -/
def windowIndex (t : Table) (E : ℝ) : ℤ :=
  ⌊(Real.sqrt E - Real.sqrt t.start_E) / t.spacing⌋

/-- One channel of the unbroadened curvefit loop (WMP.py lines 542-549):
`temp` starts at `invE` and is multiplied by `sqrtE` after each term, so
term `i` contributes `curvefit[ic, i, ch] * (invE * sqrtE^i)`. -/
def unbroadenedSum (t : Table) (ic ch : ℕ) (invE sqrtE : ℝ) : ℝ :=
  ∑ i in Finset.range t.cfT, t.cf ic i ch * (invE * sqrtE ^ i)

/-- One channel of the broadened curvefit loop (WMP.py lines 530-541). -/
def broadenedSum (t : Table) (ic ch : ℕ) (E dopp : ℝ) : ℝ :=
  ∑ i in Finset.range t.cfT, t.cf ic i ch * broadenFactor E dopp i

/-- One term of the 0 K asymptotic pole loop (WMP.py lines 556-562):
`psi_chi = -1j/(data[i,0] - sqrtE)`, `c_temp = psi_chi/E`, and the
contribution to a channel is `(data[i,col] * c_temp).real`. -/
def psiChiTerm (t : Table) (col : ℕ) (E sqrtE : ℝ) (i : ℤ) : ℝ :=
  (t.data (npWrap t.poleRows i) col *
    (-Complex.I / (t.data (npWrap t.poleRows i) 0 - (sqrtE : ℂ)) / (E : ℂ))).re

/-- The 0 K pole loop summed over the window's pole range. -/
def poleSum0 (t : Table) (startw endw : ℤ) (col : ℕ) (E sqrtE : ℝ) : ℝ :=
  ∑ i in Finset.Ico startw endw, psiChiTerm t col E sqrtE i

/-- One term of the Faddeeva-based pole loop (WMP.py lines 566-573):
`Z = (sqrtE - data[i,0])*dopp`, `w_val = _faddeeva(Z)*dopp*invE*sqrt(pi)`,
contribution `(data[i,col] * w_val).real`. -/
def faddTerm (w : ℂ → ℂ) (t : Table) (col : ℕ) (invE sqrtE dopp : ℝ) (i : ℤ) : ℝ :=
  (t.data (npWrap t.poleRows i) col *
    (_faddeeva w (((sqrtE : ℂ) - t.data (npWrap t.poleRows i) 0) * (dopp : ℂ))
      * (dopp : ℂ) * (invE : ℂ) * ((Real.sqrt π : ℝ) : ℂ))).re

/-- The finite-temperature pole loop summed over the window's pole range. -/
def poleSumT (w : ℂ → ℂ) (t : Table) (startw endw : ℤ) (col : ℕ)
    (invE sqrtE dopp : ℝ) : ℝ :=
  ∑ i in Finset.Ico startw endw, faddTerm w t col invE sqrtE dopp i

/-- The curvefit (baseline) contribution of `_evaluate`
(WMP.py lines 526-549).  The loops index channels 0 and 1 always and
channel 2 when the table is fissionable, and index `curvefit` at
`i_window`; a Python `IndexError` or the `ZeroDivisionError` inside
`_broaden_wmp_polynomials` is modelled by `none`.  (When `cfT = 0` the
Python loops would be empty and access nothing; that corner is unreachable
from `from_hdf5`, which enforces `cfT ≥ 3`.) -/
def baselinePart (t : Table) (E sqrtkT sqrtE invE : ℝ) (iwin : ℤ) :
    Option (ℝ × ℝ × ℝ) :=
  if t.cfT ≠ 0 ∧ (t.cfC < 2 ∨ (t.poleCols = 4 ∧ t.cfC < 3)) then none
  else if sqrtkT = 0 then
    match npIdx t.cfW iwin with
    | none => none
    | some ic =>
        some (unbroadenedSum t ic 0 invE sqrtE, unbroadenedSum t ic 1 invE sqrtE,
              if t.poleCols = 4 then unbroadenedSum t ic 2 invE sqrtE else 0)
  else
    match npIdx t.bpLen iwin with
    | none => none
    | some ib =>
        if t.bp ib then
          -- `_broaden_wmp_polynomials` divides by `dopp**2` and writes
          -- `factors[2]`, so `dopp = 0` or fewer than 3 terms raise.
          if t.sqrtAWR / sqrtkT = 0 ∨ t.cfT < 3 then none
          else
            match npIdx t.cfW iwin with
            | none => none
            | some ic =>
                some (broadenedSum t ic 0 E (t.sqrtAWR / sqrtkT),
                      broadenedSum t ic 1 E (t.sqrtAWR / sqrtkT),
                      if t.poleCols = 4 then broadenedSum t ic 2 E (t.sqrtAWR / sqrtkT) else 0)
        else
          match npIdx t.cfW iwin with
          | none => none
          | some ic =>
              some (unbroadenedSum t ic 0 invE sqrtE, unbroadenedSum t ic 1 invE sqrtE,
                    if t.poleCols = 4 then unbroadenedSum t ic 2 invE sqrtE else 0)

/-- The pole contribution of `_evaluate` (WMP.py lines 551-573).  When the
range `[startw, endw)` is nonempty, every index in it must be a valid
(possibly negative, wrapping) numpy row index and columns 0..2 must exist,
else `IndexError` (`none`). -/
def polePart (w : ℂ → ℂ) (t : Table) (sqrtkT E invE sqrtE : ℝ)
    (startw endw : ℤ) : Option (ℝ × ℝ × ℝ) :=
  if startw < endw ∧
      (startw < -(t.poleRows : ℤ) ∨ (t.poleRows : ℤ) < endw ∨ t.poleCols < 3) then
    none
  else if sqrtkT = 0 then
    some (poleSum0 t startw endw 1 E sqrtE, poleSum0 t startw endw 2 E sqrtE,
          if t.poleCols = 4 then poleSum0 t startw endw 3 E sqrtE else 0)
  else
    some (poleSumT w t startw endw 1 invE sqrtE (t.sqrtAWR / sqrtkT),
          poleSumT w t startw endw 2 invE sqrtE (t.sqrtAWR / sqrtkT),
          if t.poleCols = 4 then poleSumT w t startw endw 3 invE sqrtE (t.sqrtAWR / sqrtkT)
          else 0)

/-- `WindowedMultipole._evaluate(E, T)` (WMP.py lines 484-575), with the
external `scipy.special.wofz` passed as `w`.  Returns `some (sig_t, sig_a,
sig_f)` on normal return and `none` when the Python code raises:
`math.sqrt` of a negative number (`K_BOLTZMANN*T < 0` on line 509, `E < 0`
on line 510, `start_E < 0` on line 517), `1.0/E` with `E = 0` (line 511),
division by `spacing = 0` (line 517), or any out-of-bounds array access. -/
def _evaluate (w : ℂ → ℂ) (t : Table) (E T : ℝ) : Option (ℝ × ℝ × ℝ) :=
  if E < t.start_E then some (0, 0, 0)
  else if t.end_E < E then some (0, 0, 0)
  else if K_BOLTZMANN * T < 0 then none
  else if E ≤ 0 then none
  else if t.start_E < 0 then none
  else if t.spacing = 0 then none
  else
    match npIdx t.wsLen (windowIndex t E), npIdx t.weLen (windowIndex t E) with
    | some iws, some iwe =>
        match baselinePart t E (Real.sqrt (K_BOLTZMANN * T)) (Real.sqrt E) (1 / E)
                (windowIndex t E),
              polePart w t (Real.sqrt (K_BOLTZMANN * T)) E (1 / E) (Real.sqrt E)
                (t.ws iws - 1) (t.we iwe) with
        | some b, some p => some (b.1 + p.1, b.2.1 + p.2.1, b.2.2 + p.2.2)
        | _, _ => none
    | _, _ => none

/-! ### Concrete tables used as witnesses and counterexamples -/

/-- Curvefit entries for a single-window table: total-channel coefficients
`a, b, c` for the three terms, all other entries zero. -/
def cfEntry (a b c : ℝ) : List ℕ → ℝ
  | [0, 0, 0] => a
  | [0, 1, 0] => b
  | [0, 2, 0] => c
  | _ => 0

/-- A group that passes every `from_hdf5` check: `start_E = 1`,
`end_E = 100`, one window with an empty pole range (`w_start = [1]`,
`w_end = [0]`), one (unused) pole with 3 columns, a 3-term 2-channel
curvefit with total coefficients `[2, 3, 5]`, and `spacing = 1`, so that
the single window does NOT cover the energy range in sqrt(E)-space. -/
def g1 : Group where
  spacing := 1
  sqrtAWR := 1
  start_E := 1
  end_E := 100
  data := ⟨[1, 3], fun _ => 0⟩
  w_start := ⟨[1], fun _ => 1⟩
  w_end := ⟨[1], fun _ => 0⟩
  broaden_poly := ⟨[1], fun _ => false⟩
  curvefit := ⟨[1, 3, 2], cfEntry 2 3 5⟩

def tbl1 : Table := tableOfGroup g1

/-- Same as `g1` but with `spacing = 9 = sqrt(end_E) - sqrt(start_E)`, so
the single window covers the whole range, and with total-channel curvefit
coefficients `[a, b, c]`. -/
def g7 (a b c : ℝ) : Group where
  spacing := 9
  sqrtAWR := 1
  start_E := 1
  end_E := 100
  data := ⟨[1, 3], fun _ => 0⟩
  w_start := ⟨[1], fun _ => 1⟩
  w_end := ⟨[1], fun _ => 0⟩
  broaden_poly := ⟨[1], fun _ => false⟩
  curvefit := ⟨[1, 3, 2], cfEntry a b c⟩

def tbl7 (a b c : ℝ) : Table := tableOfGroup (g7 a b c)

/-- Same as `g7` but with `spacing = 10 > sqrt(end_E) - sqrt(start_E)`, so
the single window covers the whole range with strict slack even at
`E = end_E`. -/
def gW : Group where
  spacing := 10
  sqrtAWR := 1
  start_E := 1
  end_E := 100
  data := ⟨[1, 3], fun _ => 0⟩
  w_start := ⟨[1], fun _ => 1⟩
  w_end := ⟨[1], fun _ => 0⟩
  broaden_poly := ⟨[1], fun _ => false⟩
  curvefit := ⟨[1, 3, 2], cfEntry 2 3 5⟩

def tblW : Table := tableOfGroup gW

/-- A group that passes every `from_hdf5` check but whose single window
references pole rows `[w_start-1, w_end) = [4, 9)` while `data` has only
one pole row. -/
def gBad : Group where
  spacing := 9
  sqrtAWR := 1
  start_E := 1
  end_E := 100
  data := ⟨[1, 3], fun _ => 0⟩
  w_start := ⟨[1], fun _ => 5⟩
  w_end := ⟨[1], fun _ => 9⟩
  broaden_poly := ⟨[1], fun _ => false⟩
  curvefit := ⟨[1, 3, 2], fun _ => 0⟩

/-- An HDF5 file whose stored version tag differs from `WMP_VERSION` but
whose `nuclide` group is otherwise perfectly valid. -/
def fBad : HFile := ⟨"v0.9", g1⟩

/-! ### Facts about loading -/

theorem loadGroup_eq_some {g : Group} {t : Table} (h : loadGroup g = some t) :
    groupChecks g ∧ t = tableOfGroup g := by
  unfold loadGroup at h
  split_ifs at h with hc
  exact ⟨hc, (Option.some.inj h).symm⟩

theorem table_facts {g : Group} {t : Table} (h : loadGroup g = some t) :
    0 < t.spacing ∧ 0 < t.sqrtAWR ∧ 0 ≤ t.start_E ∧ 0 < t.end_E ∧
    (t.poleCols = 3 ∨ t.poleCols = 4) ∧
    t.weLen = t.wsLen ∧ t.bpLen = t.wsLen ∧
    (t.cfC = 2 ∨ t.cfC = 3) ∧ t.cfW = t.wsLen ∧ 3 ≤ t.cfT := by
  obtain ⟨hc, rfl⟩ := loadGroup_eq_some h
  obtain ⟨h1, h2, h3, h4, _, h6, _, _, h9, _, h11, _, h13, h14, h15⟩ := hc
  exact ⟨h1, h2, h3, h4, h6, h9, h11, h13, h14, h15⟩

/-! ### Bounds on the window index -/

theorem windowIndex_nonneg (t : Table) (E : ℝ) (hsp : 0 < t.spacing)
    (hE : t.start_E ≤ E) : 0 ≤ windowIndex t E :=
  Int.floor_nonneg.mpr
    (div_nonneg (sub_nonneg.mpr (Real.sqrt_le_sqrt hE)) hsp.le)

theorem windowIndex_mono (t : Table) {E E' : ℝ} (hsp : 0 < t.spacing)
    (h : E ≤ E') : windowIndex t E ≤ windowIndex t E' := by
  apply Int.floor_le_floor
  gcongr

/-! ### Loading the concrete tables -/

theorem load_g1 : loadGroup g1 = some tbl1 := by
  unfold loadGroup tbl1
  rw [if_pos]
  unfold groupChecks g1
  refine ⟨by norm_num, by norm_num, by norm_num, by norm_num, rfl, Or.inl rfl,
    rfl, rfl, rfl, rfl, rfl, rfl, Or.inl rfl, rfl, by norm_num [shapeAt]⟩

theorem load_g7 (a b c : ℝ) : loadGroup (g7 a b c) = some (tbl7 a b c) := by
  unfold loadGroup tbl7
  rw [if_pos]
  unfold groupChecks g7
  refine ⟨by norm_num, by norm_num, by norm_num, by norm_num, rfl, Or.inl rfl,
    rfl, rfl, rfl, rfl, rfl, rfl, Or.inl rfl, rfl, by norm_num [shapeAt]⟩

theorem load_gW : loadGroup gW = some tblW := by
  unfold loadGroup tblW
  rw [if_pos]
  unfold groupChecks gW
  refine ⟨by norm_num, by norm_num, by norm_num, by norm_num, rfl, Or.inl rfl,
    rfl, rfl, rfl, rfl, rfl, rfl, Or.inl rfl, rfl, by norm_num [shapeAt]⟩

theorem load_gBad : loadGroup gBad = some (tableOfGroup gBad) := by
  unfold loadGroup
  rw [if_pos]
  unfold groupChecks gBad
  refine ⟨by norm_num, by norm_num, by norm_num, by norm_num, rfl, Or.inl rfl,
    rfl, rfl, rfl, rfl, rfl, rfl, Or.inl rfl, rfl, by norm_num [shapeAt]⟩

/-! ### Concrete evaluation computations -/

theorem sqrt_twentyfive : Real.sqrt 25 = 5 := by
  rw [show (25:ℝ) = 5 ^ 2 by norm_num, Real.sqrt_sq (by norm_num : (0:ℝ) ≤ 5)]

theorem sqrt_hundred : Real.sqrt 100 = 10 := by
  rw [show (100:ℝ) = 10 ^ 2 by norm_num, Real.sqrt_sq (by norm_num : (0:ℝ) ≤ 10)]

theorem windowIndex_tbl1 : windowIndex tbl1 25 = 4 := by
  unfold windowIndex
  norm_num [tbl1, tableOfGroup, g1, sqrt_twentyfive, Real.sqrt_one]

theorem windowIndex_tbl7 (a b c : ℝ) : windowIndex (tbl7 a b c) 25 = 0 := by
  unfold windowIndex
  norm_num [tbl7, tableOfGroup, g7, sqrt_twentyfive, Real.sqrt_one]

theorem windowIndex_tblW_end : windowIndex tblW tblW.end_E = 0 := by
  unfold windowIndex
  norm_num [tblW, tableOfGroup, gW, sqrt_hundred, Real.sqrt_one]

theorem eval_tbl1 (w : ℂ → ℂ) : _evaluate w tbl1 25 0 = none := by
  unfold _evaluate
  rw [if_neg (by norm_num [tbl1, tableOfGroup, g1] : ¬ (25:ℝ) < tbl1.start_E)]
  rw [if_neg (by norm_num [tbl1, tableOfGroup, g1] : ¬ tbl1.end_E < (25:ℝ))]
  rw [if_neg (by norm_num [K_BOLTZMANN] : ¬ K_BOLTZMANN * 0 < 0)]
  rw [if_neg (by norm_num : ¬ (25:ℝ) ≤ 0)]
  rw [if_neg (by norm_num [tbl1, tableOfGroup, g1] : ¬ tbl1.start_E < 0)]
  rw [if_neg (by norm_num [tbl1, tableOfGroup, g1] : ¬ tbl1.spacing = 0)]
  rw [windowIndex_tbl1]
  simp [npIdx, tbl1, tableOfGroup, g1, shapeAt]

theorem eval_tbl7 (w : ℂ → ℂ) (a b c : ℝ) :
    _evaluate w (tbl7 a b c) 25 0 = some (a / 25 + b / 5 + c, 0, 0) := by
  unfold _evaluate
  rw [if_neg (by norm_num [tbl7, tableOfGroup, g7] : ¬ (25:ℝ) < (tbl7 a b c).start_E)]
  rw [if_neg (by norm_num [tbl7, tableOfGroup, g7] : ¬ (tbl7 a b c).end_E < (25:ℝ))]
  rw [if_neg (by norm_num [K_BOLTZMANN] : ¬ K_BOLTZMANN * 0 < 0)]
  rw [if_neg (by norm_num : ¬ (25:ℝ) ≤ 0)]
  rw [if_neg (by norm_num [tbl7, tableOfGroup, g7] : ¬ (tbl7 a b c).start_E < 0)]
  rw [if_neg (by norm_num [tbl7, tableOfGroup, g7] : ¬ (tbl7 a b c).spacing = 0)]
  rw [windowIndex_tbl7]
  have hkT : Real.sqrt (K_BOLTZMANN * 0) = 0 := by norm_num
  simp only [hkT]
  simp [npIdx, tbl7, tableOfGroup, g7, shapeAt, baselinePart, polePart,
        unbroadenedSum, poleSum0, Finset.sum_range_succ, cfEntry, sqrt_twentyfive]
  ring_nf

/-! ### General-purpose lemmas -/

theorem range_map_getD (g : ℕ → ℝ) (n k : ℕ) (hk : k < n) :
    ((List.range n).map g).getD k 0 = g k := by
  rw [List.getD_eq_getElem?_getD]
  simp [List.getElem?_map, List.getElem?_range, hk]

theorem broadenFactor_three (E dopp : ℝ) :
    broadenFactor E dopp 3
      = broadenFactor E dopp 1 * (E + (1 + 2 * 1) * (0.5 / dopp ^ 2)) := by
  conv_lhs => rw [broadenFactor]
  simp

theorem broadenFactor_add_three (E dopp : ℝ) (m : ℕ) (hm : m ≠ 0) :
    broadenFactor E dopp (m + 3)
      = -broadenFactor E dopp (m - 1) * (((m + 1 : ℕ) : ℝ) - 1) * ((m + 1 : ℕ) : ℝ)
          * (0.5 / dopp ^ 2) ^ 2
        + broadenFactor E dopp (m + 1)
          * (E + (1 + 2 * ((m + 1 : ℕ) : ℝ)) * (0.5 / dopp ^ 2)) := by
  conv_lhs => rw [broadenFactor]
  simp [hm]

theorem npIdx_of_bounds {len : ℕ} {i : ℤ} (h0 : 0 ≤ i) (h1 : i < (len : ℤ)) :
    npIdx len i = some i.toNat := by
  unfold npIdx
  rw [if_pos h0, if_pos h1]

theorem arg_pos_iff (z : ℂ) :
    0 < Complex.arg z ↔ 0 < z.im ∨ (z.im = 0 ∧ z.re < 0) := by
  constructor
  · intro h
    have h0 : 0 ≤ z.im := Complex.arg_nonneg_iff.mp h.le
    rcases eq_or_lt_of_le h0 with he | hl
    · refine Or.inr ⟨he.symm, ?_⟩
      by_contra hre
      push_neg at hre
      have hz : Complex.arg z = 0 := Complex.arg_eq_zero_iff.mpr ⟨hre, he.symm⟩
      rw [hz] at h
      exact lt_irrefl 0 h
    · exact Or.inl hl
  · rintro (him | ⟨him, hre⟩)
    · refine lt_of_le_of_ne (Complex.arg_nonneg_iff.mpr him.le) ?_
      intro h0
      have h2 := (Complex.arg_eq_zero_iff.mp h0.symm).2
      rw [h2] at him
      exact lt_irrefl 0 him
    · rw [Complex.arg_eq_pi_iff.mpr ⟨hre, him⟩]
      exact Real.pi_pos

theorem baselinePart_fission_eq_zero {t : Table} (h : t.poleCols ≠ 4)
    {E sqrtkT sqrtE invE : ℝ} {iwin : ℤ} {b : ℝ × ℝ × ℝ}
    (hb : baselinePart t E sqrtkT sqrtE invE iwin = some b) : b.2.2 = 0 := by
  unfold baselinePart at hb
  repeat' split at hb
  all_goals simp_all
  all_goals rw [← hb]

theorem polePart_fission_eq_zero {w : ℂ → ℂ} {t : Table} (h : t.poleCols ≠ 4)
    {sqrtkT E invE sqrtE : ℝ} {startw endw : ℤ} {p : ℝ × ℝ × ℝ}
    (hp : polePart w t sqrtkT E invE sqrtE startw endw = some p) : p.2.2 = 0 := by
  unfold polePart at hp
  repeat' split at hp
  all_goals simp_all
  all_goals rw [← hp]

theorem K_pos : 0 < K_BOLTZMANN := by norm_num [K_BOLTZMANN]

theorem baselinePart_isSome (t : Table) (E sqrtkT sqrtE invE : ℝ) (iwin : ℤ)
    (hkT : 0 ≤ sqrtkT) (hAWR : 0 < t.sqrtAWR)
    (hcfWs : (npIdx t.cfW iwin).isSome)
    (hbps : (npIdx t.bpLen iwin).isSome)
    (hcfC : t.cfC = 2 ∨ t.cfC = 3)
    (hfiss : t.poleCols = 4 → t.cfC = 3)
    (hcfT : 3 ≤ t.cfT) :
    (baselinePart t E sqrtkT sqrtE invE iwin).isSome := by
  obtain ⟨ic, hic⟩ := Option.isSome_iff_exists.mp hcfWs
  obtain ⟨ib, hib⟩ := Option.isSome_iff_exists.mp hbps
  unfold baselinePart
  rw [if_neg]
  · simp only [hic, hib]
    by_cases hs : sqrtkT = 0
    · rw [if_pos hs]; rfl
    · rw [if_neg hs]
      by_cases hbpv : t.bp ib = true
      · rw [if_pos hbpv, if_neg]
        · rfl
        · rintro (hz | hlt)
          · have hkT0 : 0 < sqrtkT := lt_of_le_of_ne hkT (Ne.symm hs)
            exact absurd hz (div_ne_zero hAWR.ne' hkT0.ne')
          · omega
      · rw [if_neg hbpv]; rfl
  · rintro ⟨h1, h2 | ⟨h3, h4⟩⟩
    · omega
    · have := hfiss h3
      omega

theorem polePart_isSome (w : ℂ → ℂ) (t : Table) (sqrtkT E invE sqrtE : ℝ)
    (startw endw : ℤ)
    (hrange : startw < endw → 0 ≤ startw ∧ endw ≤ (t.poleRows : ℤ))
    (hcols : 3 ≤ t.poleCols) :
    (polePart w t sqrtkT E invE sqrtE startw endw).isSome := by
  unfold polePart
  rw [if_neg]
  · split_ifs <;> rfl
  · rintro ⟨hlt, h2 | h3 | h4⟩
    · obtain ⟨ha, _⟩ := hrange hlt
      have : (0:ℤ) ≤ (t.poleRows : ℤ) := Int.ofNat_nonneg _
      omega
    · obtain ⟨_, hb⟩ := hrange hlt
      omega
    · omega

/-! ### The claims -/

/-- C1: for every `E > 0`, `dopp > 0` and term count `n ≥ 3`,
`_broaden_wmp_polynomials(E, dopp, n)` returns the `n` values `f` with
`f[0] = erf(beta)/E`, `f[1] = 1/sqrtE`,
`f[2] = f[0]*(h+E) + exp(-beta^2)/(beta*sqrt(pi))` where `beta = sqrtE*dopp`
and `h = 1/(2*dopp^2)`, and for `i = 1 .. n-3`:
`f[i+2] = f[i]*(E+(1+2i)*h)` when `i = 1` and
`f[i+2] = -f[i-2]*(i-1)*i*h^2 + f[i]*(E+(1+2i)*h)` otherwise; when
`beta > 6` the values `erf(beta)` and `exp(-beta^2)` are replaced by 1
and 0. -/
theorem broaden_wmp_polynomials_spec (E dopp : ℝ) (n : ℕ)
    (hE : 0 < E) (hdopp : 0 < dopp) (hn : 3 ≤ n) :
    (_broaden_wmp_polynomials E dopp n).length = n ∧
    (_broaden_wmp_polynomials E dopp n).getD 0 0
      = (if 6 < Real.sqrt E * dopp then 1 else erf (Real.sqrt E * dopp)) / E ∧
    (_broaden_wmp_polynomials E dopp n).getD 1 0 = 1 / Real.sqrt E ∧
    (_broaden_wmp_polynomials E dopp n).getD 2 0
      = (_broaden_wmp_polynomials E dopp n).getD 0 0 * (1 / (2 * dopp ^ 2) + E)
        + (if 6 < Real.sqrt E * dopp then 0 else Real.exp (-(Real.sqrt E * dopp) ^ 2))
          / (Real.sqrt E * dopp * Real.sqrt π) ∧
    ∀ i : ℕ, 1 ≤ i → i ≤ n - 3 →
      (_broaden_wmp_polynomials E dopp n).getD (i + 2) 0
        = if i = 1 then
            (_broaden_wmp_polynomials E dopp n).getD i 0
              * (E + (1 + 2 * (i : ℝ)) * (1 / (2 * dopp ^ 2)))
          else
            -(_broaden_wmp_polynomials E dopp n).getD (i - 2) 0 * ((i : ℝ) - 1) * (i : ℝ)
                * (1 / (2 * dopp ^ 2)) ^ 2
              + (_broaden_wmp_polynomials E dopp n).getD i 0
                * (E + (1 + 2 * (i : ℝ)) * (1 / (2 * dopp ^ 2))) := by
  have hhalf : (0.5 : ℝ) / dopp ^ 2 = 1 / (2 * dopp ^ 2) := by
    rw [show (0.5 : ℝ) = 1 / 2 by norm_num]
    ring
  unfold _broaden_wmp_polynomials
  refine ⟨by simp, ?_, ?_, ?_, ?_⟩
  · rw [range_map_getD (broadenFactor E dopp) n 0 (by omega)]
    conv_lhs => rw [broadenFactor]
  · rw [range_map_getD (broadenFactor E dopp) n 1 (by omega)]
    conv_lhs => rw [broadenFactor]
  · rw [range_map_getD (broadenFactor E dopp) n 2 (by omega),
        range_map_getD (broadenFactor E dopp) n 0 (by omega)]
    conv_lhs => rw [broadenFactor]
    conv_rhs => rw [broadenFactor]
    rw [hhalf]
  · intro i h1 h3
    rcases eq_or_lt_of_le h1 with he | h2
    · subst he
      rw [if_pos rfl]
      rw [range_map_getD (broadenFactor E dopp) n 3 (by omega),
          range_map_getD (broadenFactor E dopp) n 1 (by omega)]
      rw [broadenFactor_three, hhalf]
      push_cast
      ring
    · obtain ⟨m, rfl⟩ : ∃ m, i = m + 2 := ⟨i - 2, by omega⟩
      rw [if_neg (by omega : ¬ m + 2 = 1)]
      rw [show m + 2 - 2 = m by omega]
      rw [range_map_getD (broadenFactor E dopp) n (m + 2 + 2) (by omega),
          range_map_getD (broadenFactor E dopp) n m (by omega),
          range_map_getD (broadenFactor E dopp) n (m + 2) (by omega)]
      rw [show m + 2 + 2 = (m + 1) + 3 by omega,
          broadenFactor_add_three E dopp (m + 1) (by omega)]
      rw [show m + 1 - 1 = m by omega, show m + 1 + 1 = m + 2 by omega]
      rw [hhalf]
      try push_cast
      try ring

/-- Witness for C1 at `E = 1`, `dopp = 1`, `n = 3`. -/
theorem broaden_wmp_polynomials_spec_witness :
    (0:ℝ) < 1 ∧ (3:ℕ) ≤ 3 ∧ (_broaden_wmp_polynomials 1 1 3).length = 3 :=
  ⟨by norm_num, by norm_num,
    (broaden_wmp_polynomials_spec 1 1 3 (by norm_num) (by norm_num) (by norm_num)).1⟩

/-- C2 counterexample: at `z = -1` (negative real axis) the predicates
`Im z > 0` and `angle z > 0` are NOT equivalent (`angle(-1) = pi > 0` but
`Im(-1) = 0`), and `_faddeeva` returns the direct value `w z` rather than
the reflected value `-conj(w(conj z))` that the claim prescribes for
`Im z ≤ 0`. -/
theorem faddeeva_angle_dispatch_counterexample :
    Complex.im (-1 : ℂ) ≤ 0 ∧
    ¬ (0 < Complex.im (-1 : ℂ) ↔ 0 < Complex.arg (-1 : ℂ)) ∧
    _faddeeva id (-1 : ℂ) ≠ -(starRingEnd ℂ) (id ((starRingEnd ℂ) (-1 : ℂ))) := by
  refine ⟨by simp, ?_, ?_⟩
  · rw [Complex.arg_neg_one]
    intro h
    have h0 := h.mpr Real.pi_pos
    simp at h0
  · have harg : 0 < Complex.arg (-1 : ℂ) := by
      rw [Complex.arg_neg_one]
      exact Real.pi_pos
    unfold _faddeeva
    rw [if_pos harg]
    simp [Complex.ext_iff]
    norm_num

/-- C2 amended: `_faddeeva` dispatches on `angle z > 0`, which holds iff
`Im z > 0` or `z` lies on the open negative real axis; it returns the
direct value `w z` in that case and `-conj(w(conj z))` otherwise.  The
two predicates of the claim differ exactly on the negative real axis. -/
theorem faddeeva_angle_dispatch_amended (w : ℂ → ℂ) (z : ℂ) :
    (0 < Complex.arg z ↔ 0 < z.im ∨ (z.im = 0 ∧ z.re < 0)) ∧
    _faddeeva w z
      = if 0 < z.im ∨ (z.im = 0 ∧ z.re < 0) then w z
        else -(starRingEnd ℂ) (w ((starRingEnd ℂ) z)) := by
  refine ⟨arg_pos_iff z, ?_⟩
  unfold _faddeeva
  exact if_congr (arg_pos_iff z) rfl rfl

/-- C3: for every table (however malformed), every temperature and every
energy with `E < start_E` or `E > end_E`, `_evaluate` returns exactly
`(0, 0, 0)` without consulting the window locator, the baseline
coefficients or the poles (the result is independent of all of them). -/
theorem evaluate_out_of_range_zero (w : ℂ → ℂ) (t : Table) (E T : ℝ)
    (h : E < t.start_E ∨ t.end_E < E) :
    _evaluate w t E T = some (0, 0, 0) := by
  unfold _evaluate
  rcases h with h | h
  · rw [if_pos h]
  · by_cases h1 : E < t.start_E
    · rw [if_pos h1]
    · rw [if_neg h1, if_pos h]

/-- Witness for C3 at `E = 0.5 < start_E = 1`. -/
theorem evaluate_out_of_range_zero_witness :
    ((0.5:ℝ) < tbl1.start_E ∨ tbl1.end_E < (0.5:ℝ)) ∧
    _evaluate id tbl1 0.5 0 = some (0, 0, 0) :=
  ⟨Or.inl (by norm_num [tbl1, tableOfGroup, g1]),
   evaluate_out_of_range_zero id tbl1 0.5 0
     (Or.inl (by norm_num [tbl1, tableOfGroup, g1]))⟩

/-- C4 counterexample: `tbl1` is successfully constructed (validated) and
`E = 25` lies in `[start_E, end_E] = [1, 100]`, yet the window index is
`4`, outside `[0, numWindows - 1] = [0, 0]`, and the subsequent `w_start`
access is out of bounds. -/
theorem window_index_in_bounds_counterexample :
    loadGroup g1 = some tbl1 ∧
    tbl1.start_E ≤ 25 ∧ (25:ℝ) ≤ tbl1.end_E ∧
    tbl1.wsLen = 1 ∧ windowIndex tbl1 25 = 4 ∧
    ¬ windowIndex tbl1 25 ≤ (tbl1.wsLen : ℤ) - 1 ∧
    npIdx tbl1.wsLen (windowIndex tbl1 25) = none := by
  refine ⟨load_g1, by norm_num [tbl1, tableOfGroup, g1],
    by norm_num [tbl1, tableOfGroup, g1], rfl, windowIndex_tbl1, ?_, ?_⟩
  · rw [windowIndex_tbl1]
    decide
  · rw [windowIndex_tbl1]
    decide

/-- C4 amended: for a successfully constructed table whose windows cover
the range (`windowIndex` at `end_E` is less than the window count —
a condition construction does NOT enforce), the window index of every
`E` in `[start_E, end_E]` lies in `[0, numWindows - 1]` and the accesses
to `w_start`, `w_end`, `broaden_poly` and `curvefit` at it are in
bounds. -/
theorem window_index_in_bounds_amended (g : Group) (t : Table) (E : ℝ)
    (hload : loadGroup g = some t)
    (hE1 : t.start_E ≤ E) (hE2 : E ≤ t.end_E)
    (hcov : windowIndex t t.end_E < (t.wsLen : ℤ)) :
    0 ≤ windowIndex t E ∧ windowIndex t E < (t.wsLen : ℤ) ∧
    npIdx t.wsLen (windowIndex t E) = some (windowIndex t E).toNat ∧
    npIdx t.weLen (windowIndex t E) = some (windowIndex t E).toNat ∧
    npIdx t.bpLen (windowIndex t E) = some (windowIndex t E).toNat ∧
    npIdx t.cfW (windowIndex t E) = some (windowIndex t E).toNat := by
  obtain ⟨hsp, _, _, _, _, hweLen, hbpLen, _, hcfW, _⟩ := table_facts hload
  have hw0 := windowIndex_nonneg t E hsp hE1
  have hw1 : windowIndex t E < (t.wsLen : ℤ) :=
    lt_of_le_of_lt (windowIndex_mono t hsp hE2) hcov
  exact ⟨hw0, hw1, npIdx_of_bounds hw0 hw1,
    by rw [hweLen]; exact npIdx_of_bounds hw0 hw1,
    by rw [hbpLen]; exact npIdx_of_bounds hw0 hw1,
    by rw [hcfW]; exact npIdx_of_bounds hw0 hw1⟩

/-- Witness for the amended C4 on the covering table `tblW` at `E = 25`. -/
theorem window_index_in_bounds_amended_witness :
    0 ≤ windowIndex tblW 25 ∧ windowIndex tblW 25 < (tblW.wsLen : ℤ) := by
  have h := window_index_in_bounds_amended gW tblW 25 load_gW
    (by norm_num [tblW, tableOfGroup, gW])
    (by norm_num [tblW, tableOfGroup, gW])
    (by rw [windowIndex_tblW_end]; decide)
  exact ⟨h.1, h.2.1⟩

/-- C5 counterexample: `tbl1` is successfully constructed, `T = 0 ≥ 0`,
`E = 25` is inside the validity range, yet `_evaluate` raises an
`IndexError` (modelled `none`) because the window index 4 is out of
bounds — construction does not validate window coverage. -/
theorem evaluate_no_exception_counterexample :
    loadGroup g1 = some tbl1 ∧ (0:ℝ) ≤ 0 ∧
    tbl1.start_E ≤ 25 ∧ (25:ℝ) ≤ tbl1.end_E ∧
    _evaluate id tbl1 25 0 = none :=
  ⟨load_g1, le_refl 0, by norm_num [tbl1, tableOfGroup, g1],
   by norm_num [tbl1, tableOfGroup, g1], eval_tbl1 id⟩

/-- C5 amended: for every successfully constructed table that additionally
has `start_E > 0`, windows covering the range, in-bounds window pole
ranges, and a fission curvefit channel whenever it is fissionable (none of
which construction enforces), `_evaluate` terminates normally (no
exception) for every energy and every `T ≥ 0`. -/
theorem evaluate_no_exception_amended (w : ℂ → ℂ) (g : Group) (t : Table)
    (hload : loadGroup g = some t)
    (hstart : 0 < t.start_E)
    (hcov : windowIndex t t.end_E < (t.wsLen : ℤ))
    (hpoles : ∀ i : ℕ, i < t.wsLen → t.ws i - 1 < t.we i →
        0 ≤ t.ws i - 1 ∧ t.we i ≤ (t.poleRows : ℤ))
    (hfiss : t.poleCols = 4 → t.cfC = 3)
    (E T : ℝ) (hT : 0 ≤ T) :
    (_evaluate w t E T).isSome := by
  obtain ⟨hsp, hAWR, hsE, hendE, hpc, hweLen, hbpLen, hcfC, hcfW, hcfT⟩ := table_facts hload
  unfold _evaluate
  by_cases h1 : E < t.start_E
  · rw [if_pos h1]; rfl
  rw [if_neg h1]
  push_neg at h1
  by_cases h2 : t.end_E < E
  · rw [if_pos h2]; rfl
  rw [if_neg h2]
  push_neg at h2
  rw [if_neg (not_lt.mpr (mul_nonneg K_pos.le hT))]
  have hE0 : 0 < E := lt_of_lt_of_le hstart h1
  rw [if_neg (not_le.mpr hE0)]
  rw [if_neg (not_lt.mpr hstart.le)]
  rw [if_neg hsp.ne']
  have hw0 : 0 ≤ windowIndex t E := windowIndex_nonneg t E hsp h1
  have hw1 : windowIndex t E < (t.wsLen : ℤ) :=
    lt_of_le_of_lt (windowIndex_mono t hsp h2) hcov
  have hws := npIdx_of_bounds hw0 hw1
  have hwe : npIdx t.weLen (windowIndex t E) = some (windowIndex t E).toNat := by
    rw [hweLen]; exact npIdx_of_bounds hw0 hw1
  have hcfWs : (npIdx t.cfW (windowIndex t E)).isSome := by
    rw [hcfW, npIdx_of_bounds hw0 hw1]; rfl
  have hbps : (npIdx t.bpLen (windowIndex t E)).isSome := by
    rw [hbpLen, npIdx_of_bounds hw0 hw1]; rfl
  have hb := baselinePart_isSome t E (Real.sqrt (K_BOLTZMANN * T)) (Real.sqrt E) (1 / E)
    (windowIndex t E) (Real.sqrt_nonneg _) hAWR hcfWs hbps hcfC hfiss hcfT
  obtain ⟨b, hbv⟩ := Option.isSome_iff_exists.mp hb
  have hiwsLt : (windowIndex t E).toNat < t.wsLen := by omega
  have hp := polePart_isSome w t (Real.sqrt (K_BOLTZMANN * T)) E (1 / E) (Real.sqrt E)
    (t.ws (windowIndex t E).toNat - 1) (t.we (windowIndex t E).toNat)
    (hpoles _ hiwsLt) (by rcases hpc with h | h <;> omega)
  obtain ⟨p, hpv⟩ := Option.isSome_iff_exists.mp hp
  simp only [hws, hwe, hbv, hpv]
  rfl

/-- Witness for the amended C5 on the covering table `tblW`. -/
theorem evaluate_no_exception_amended_witness :
    (_evaluate id tblW 25 0).isSome = true := by
  apply evaluate_no_exception_amended id gW tblW load_gW
  · norm_num [tblW, tableOfGroup, gW]
  · rw [windowIndex_tblW_end]
    decide
  · intro i hi h
    exfalso
    norm_num [tblW, tableOfGroup, gW] at h
  · intro h4
    exact absurd h4 (by decide)
  · norm_num

/-- C6: for every non-fissionable table (3 pole columns, 2 curvefit
channels), whenever `_evaluate` returns a triple at all, its fission
component is exactly 0. -/
theorem nonfissionable_fission_zero (w : ℂ → ℂ) (t : Table) (E T : ℝ)
    (hcols : t.poleCols = 3) (hchan : t.cfC = 2)
    (st sa sf : ℝ) (hev : _evaluate w t E T = some (st, sa, sf)) :
    sf = 0 := by
  unfold _evaluate at hev
  split_ifs at hev
  · simp only [Option.some.injEq, Prod.mk.injEq] at hev
    exact hev.2.2.symm
  · simp only [Option.some.injEq, Prod.mk.injEq] at hev
    exact hev.2.2.symm
  · repeat' split at hev
    all_goals try simp_all
    rename_i hb hp
    have h4 : t.poleCols ≠ 4 := by rw [hcols]; decide
    have hbz := baselinePart_fission_eq_zero h4 hb
    have hpz := polePart_fission_eq_zero h4 hp
    rw [← hev.2.2, hbz, hpz, add_zero]

/-- Witness for C6 on the non-fissionable table `tbl7 1 1 1`. -/
theorem nonfissionable_fission_zero_witness :
    (tbl7 1 1 1).poleCols = 3 ∧ (tbl7 1 1 1).cfC = 2 ∧
    _evaluate id (tbl7 1 1 1) 25 0 = some (1/25 + 1/5 + 1, 0, 0) ∧ (0:ℝ) = 0 :=
  ⟨rfl, rfl, eval_tbl7 id 1 1 1,
    nonfissionable_fission_zero id (tbl7 1 1 1) 25 0 rfl rfl
      (1/25 + 1/5 + 1) 0 0 (eval_tbl7 id 1 1 1)⟩

/-- C7 counterexample: the spec's scenario verbatim — `start_E = 1`,
`end_E = 100`, `spacing = 1.0`, one window, empty pole range, unbroadened
3-term total curvefit `[2, 3, 5]` — makes `_evaluate(25.0, 0.0)` raise an
`IndexError` (window index 4 with one window), modelled `none`, instead of
returning `2/25 + 3/5 + 5`: with `spacing = 1` the single window does not
span the range. -/
theorem concrete_scenario_counterexample :
    loadGroup g1 = some tbl1 ∧
    tbl1.start_E = 1 ∧ tbl1.end_E = 100 ∧ tbl1.spacing = 1 ∧ tbl1.wsLen = 1 ∧
    _evaluate id tbl1 25 0 = none ∧
    _evaluate id tbl1 25 0 ≠ some ((2:ℝ)/25 + 3/5 + 5, 0, 0) := by
  refine ⟨load_g1, rfl, rfl, rfl, rfl, eval_tbl1 id, ?_⟩
  rw [eval_tbl1 id]
  simp

/-- C7 amended: with `spacing = 9 = sqrt(end_E) - sqrt(start_E)` (so the
single window really spans the whole range), the scenario holds: the
table with `start_E = 1`, `end_E = 100`, one window with empty pole range
and unbroadened 3-term total curvefit `[a, b, c]` evaluates at
`(E, T) = (25, 0)` to a total cross section of exactly
`a/25 + b/5 + c` (and 0 absorption, 0 fission). -/
theorem concrete_scenario_amended (w : ℂ → ℂ) (a b c : ℝ) :
    loadGroup (g7 a b c) = some (tbl7 a b c) ∧
    (tbl7 a b c).start_E = 1 ∧ (tbl7 a b c).end_E = 100 ∧
    _evaluate w (tbl7 a b c) 25 0 = some (a / 25 + b / 5 + c, 0, 0) :=
  ⟨load_g7 a b c, rfl, rfl, eval_tbl7 w a b c⟩

/-- C8 counterexample: `from_hdf5` accepts `gBad`, whose single window
references pole rows `[4, 9)` although there is only 1 pole, and returns
a table instead of failing. -/
theorem pole_range_validation_counterexample :
    from_hdf5 (.group gBad) = some (tableOfGroup gBad) ∧
    (tableOfGroup gBad).poleRows = 1 ∧
    (tableOfGroup gBad).ws 0 - 1 = 4 ∧ (tableOfGroup gBad).we 0 = 9 ∧
    ¬ ((tableOfGroup gBad).we 0 ≤ ((tableOfGroup gBad).poleRows : ℤ)) :=
  ⟨load_gBad, rfl, by decide, by decide, by decide⟩

/-- C8 amended: `from_hdf5` on a group succeeds precisely when the scalar
positivity checks, array rank/shape checks, cross-array length checks and
`fit_order ≥ 2` hold (`groupChecks`); no pole-index-range check is among
them, so windows referencing out-of-range poles are accepted. -/
theorem pole_range_validation_amended (g : Group) :
    (from_hdf5 (.group g)).isSome = true ↔ groupChecks g := by
  show (loadGroup g).isSome = true ↔ groupChecks g
  unfold loadGroup
  split_ifs with h
  · simpa using h
  · simpa using h

/-- C9 counterexample: the version tag is checked only on the filename
path.  For the file `fBad` with version tag `"v0.9" ≠ WMP_VERSION`, loading
by filename fails, but handing `from_hdf5` the already-open group of the
very same file succeeds and returns a table. -/
theorem version_check_counterexample :
    fBad.version ≠ WMP_VERSION ∧
    from_hdf5 (.filename fBad) = none ∧
    from_hdf5 (.group fBad.nuclide) = some tbl1 := by
  refine ⟨by decide, ?_, load_g1⟩
  show (if fBad.version = WMP_VERSION then loadGroup fBad.nuclide else none) = none
  rw [if_neg (by decide)]

/-- C9 amended: a version tag differing from `WMP_VERSION` makes loading
by filename fail, but when `from_hdf5` is given an already-open group the
version is never consulted and loading proceeds as if it matched. -/
theorem version_check_amended (f : HFile) (hv : f.version ≠ WMP_VERSION) :
    from_hdf5 (.filename f) = none ∧
    from_hdf5 (.group f.nuclide) = loadGroup f.nuclide := by
  refine ⟨?_, rfl⟩
  show (if f.version = WMP_VERSION then loadGroup f.nuclide else none) = none
  rw [if_neg hv]

/-- Witness for the amended C9 at the concrete file `fBad`. -/
theorem version_check_amended_witness :
    fBad.version ≠ WMP_VERSION ∧ from_hdf5 (.filename fBad) = none :=
  ⟨by decide, (version_check_amended fBad (by decide)).1⟩

/-- C10: for every table and every `E` in `[start_E, end_E]`, `_evaluate`
computes `sqrt(K_BOLTZMANN*T)` before any other work, so for every
`T < 0` the call raises a `math` domain error (modelled `none`) instead
of returning cross sections. -/
theorem negative_temperature_domain_error (w : ℂ → ℂ) (t : Table) (E T : ℝ)
    (hE1 : t.start_E ≤ E) (hE2 : E ≤ t.end_E) (hT : T < 0) :
    _evaluate w t E T = none := by
  unfold _evaluate
  rw [if_neg (not_lt.mpr hE1), if_neg (not_lt.mpr hE2),
      if_pos (mul_neg_of_pos_of_neg K_pos hT)]

/-- Witness for C10 at `E = 25`, `T = -1` on `tbl1`. -/
theorem negative_temperature_domain_error_witness :
    tbl1.start_E ≤ 25 ∧ (25:ℝ) ≤ tbl1.end_E ∧ (-1:ℝ) < 0 ∧
    _evaluate id tbl1 25 (-1) = none :=
  ⟨by norm_num [tbl1, tableOfGroup, g1], by norm_num [tbl1, tableOfGroup, g1],
   by norm_num,
   negative_temperature_domain_error id tbl1 25 (-1)
     (by norm_num [tbl1, tableOfGroup, g1])
     (by norm_num [tbl1, tableOfGroup, g1]) (by norm_num)⟩

end WMP
